import Mathlib

/-!
Verification development for the massage-therapist candidate filter.

The repository has two entry points sharing one core:
  * `massage_filter.py`      — the command-line pipeline (`main`);
  * `massage_filter_app.py`  — the interactive pipeline (same filtering code,
    slightly different numeric-activation guards and sort-key resolution).

This file shallowly embeds the core: cells, datasets, the column resolver
(`autodetect_columns`), the filter criteria (`mask &= ...` steps), the
multi-key sort (`DataFrame.sort_values`, a stable lexicographic sort with
missing values placed last per key, as `na_position="last"` does) and the
column reorder, and proves the claimed properties about them.

Modelling conventions:
  * cells are strings, exact rationals (for pandas floats; the datasets in
    the claims only use decimal literals, where rational and float
    arithmetic agree), booleans, or a missing marker (NaN);
  * `str.lower` is modelled by mapping `Char.toLower` over the characters,
    and `str.strip` by dropping leading/trailing ASCII whitespace;
  * `pd.to_numeric(errors="coerce")` is modelled by a sign/digits/fraction
    parser; scientific notation and infinities are not modelled (no claim
    exercises them), and any unparsable string coerces to missing, exactly
    as `errors="coerce"` yields NaN;
  * `pandas.Series.str.contains` is modelled as plain substring matching
    (its regex semantics coincide on patterns without metacharacters, and
    no claim uses metacharacters);
  * rendering a numeric cell back to text (`astype(str)` on a float column)
    is modelled only up to integral values; no claim applies a string
    criterion to a numeric column.
-/

/-- Python whitespace characters recognised by `str.strip`. -/
def isSpaceChar (c : Char) : Bool :=
  c = ' ' || c = '\t' || c = '\n' || c = '\r' || c = '\x0b' || c = '\x0c'

/-- Strip leading and trailing whitespace from a character list. -/
def stripWsL (cs : List Char) : List Char :=
  ((cs.dropWhile isSpaceChar).reverse.dropWhile isSpaceChar).reverse

/-- Python `str.strip()`. -/
def pstrip (s : String) : String :=
  String.mk (stripWsL s.toList)

/-- Python `str.lower()` (ASCII case folding via `Char.toLower`). -/
def lowerStr (s : String) : String :=
  String.mk (s.toList.map Char.toLower)

/-- Is `n` a prefix of the second list? (Python slice comparison.) -/
def prefB : List Char → List Char → Bool
  | [], _ => true
  | _ :: _, [] => false
  | a :: x, b :: y => a == b && prefB x y

/-- Python `n in h` on strings: `n` occurs as a contiguous substring. -/
def substrB (n : List Char) : List Char → Bool
  | [] => n.isEmpty
  | l@(_ :: t) => prefB n l || substrB n t

/-- `contains_all` from `massage_filter.py`: every needle occurs
case-insensitively in the haystack. -/
def contains_all (haystack : String) (needles : List String) : Bool :=
  needles.all (fun n => substrB (lowerStr n).toList (lowerStr haystack).toList)

/-- `contains_all` from `massage_filter_app.py`: identical except each needle
is re-stripped and blank needles are skipped by the generator filter. -/
def contains_all_app (haystack : String) (needles : List String) : Bool :=
  needles.all (fun n =>
    if pstrip n = "" then true
    else substrB (lowerStr (pstrip n)).toList (lowerStr haystack).toList)

/-- Split a character list at every character satisfying `p` (the pieces
between separators, empties included), as `re.split` does. -/
def splitChP (p : Char → Bool) : List Char → List (List Char)
  | [] => [[]]
  | c :: cs =>
    let r := splitChP p cs
    if p c then [] :: r
    else
      match r with
      | [] => [[c]]
      | g :: gs => (c :: g) :: gs

/-- `re.split(r"[;,]", s)` on a string. -/
def splitListSep (s : String) : List String :=
  (splitChP (fun c => c = ',' || c = ';') s.toList).map String.mk

/-- `split_list`: split a request string on comma/semicolon, strip the
pieces, and drop empties.  `none` models an unsupplied argument. -/
def split_list : Option String → List String
  | none => []
  | some s =>
    if s = "" then []
    else ((splitListSep s).map pstrip).filter (fun t => t != "")

/-- One dataset cell: a text value, a numeric value, a boolean, or missing
(pandas NaN). -/
inductive Cell where
  | str (s : String)
  | num (q : Rat)
  | boolv (b : Bool)
  | missing
deriving DecidableEq

/-- A tabular dataset: a header list and rows of cells aligned with it. -/
structure Dataset where
  headers : List String
  rows : List (List Cell)
deriving DecidableEq

/-- Read the cell of row `r` under header `h` (missing if absent). -/
def cellAt (hs : List String) (r : List Cell) (h : String) : Cell :=
  match hs.findIdx? (fun c => c == h) with
  | some i => r.getD i Cell.missing
  | none => Cell.missing

/-- The static alias table (identical in both source files). -/
def ALIASES : List (String × List String) :=
  [("name", ["name", "therapist", "provider"]),
   ("city", ["city", "location_city", "town"]),
   ("neighborhood", ["neighborhood", "area", "district", "borough"]),
   ("price", ["price", "rate", "fee", "session_cost"]),
   ("currency", ["currency", "price_currency"]),
   ("rating", ["rating", "score", "stars"]),
   ("reviews", ["reviews", "review_count"]),
   ("modalities", ["modalities", "techniques", "specialties", "services"]),
   ("gender", ["gender", "therapist_gender"]),
   ("languages", ["languages", "language"]),
   ("mobileservice", ["mobileservice", "mobile", "in_home", "house_call"]),
   ("availability", ["availability", "hours", "schedule"]),
   ("yearsexperience", ["yearsexperience", "experience_years", "yrs_exp", "experience"]),
   ("credentials", ["credentials", "license", "certifications"]),
   ("bio", ["bio", "about", "description", "summary"])]

/-- The canonical-field enumeration order used for the column reorder. -/
def CANON_ORDER : List String :=
  ["name", "city", "neighborhood", "price", "currency", "rating", "reviews",
   "modalities", "gender", "languages", "mobileservice", "availability",
   "yearsexperience", "credentials", "bio"]

/-- The `cols = \x7bc.lower(): c for c in df.columns\x7d` dictionary:
look up a lower-case name; the later header wins on collisions. -/
def lowerLookup (hs : List String) (a : String) : Option String :=
  (hs.filter (fun c => lowerStr c == a)).getLast?

/-- First alias (in listed order) present among the lower-cased headers. -/
def findFirstAlias (hs : List String) : List String → Option String
  | [] => none
  | a :: rest =>
    match lowerLookup hs a with
    | some c => some c
    | none => findFirstAlias hs rest

/-- `autodetect_columns`: the header mapped to a canonical field, if any. -/
def autodetectColumns (hs : List String) (canon : String) : Option String :=
  match ALIASES.lookup canon with
  | some al => findFirstAlias hs al
  | none => none

/-- Render a rational the way `str(float)` renders an integral float;
non-integral rendering is approximated (no claim applies a string criterion
to a numeric column). -/
def ratStr (q : Rat) : String :=
  if q.den = 1 then toString q.num ++ ".0"
  else toString q.num ++ "/" ++ toString q.den

/-- `astype(str)` on one cell: notably, a missing cell renders as "nan". -/
def cellStr : Cell → String
  | Cell.str s => s
  | Cell.num q => ratStr q
  | Cell.boolv b => if b then "True" else "False"
  | Cell.missing => "nan"

/-- Numeric value of a digit character. -/
def digitVal (c : Char) : Nat := c.toNat - 48

/-- Value of a digit string read in base 10. -/
def digitsVal (cs : List Char) : Nat :=
  cs.foldl (fun a c => a * 10 + digitVal c) 0

/-- Split a character list at the first dot, if any. -/
def splitDot : List Char → List Char × Option (List Char)
  | [] => ([], none)
  | c :: rest =>
    if c = '.' then ([], some rest)
    else
      let p := splitDot rest
      (c :: p.1, p.2)

/-- `pd.to_numeric(errors="coerce")` on a text cell: optional sign, digits,
optional fractional part; anything else coerces to missing. -/
def parseNum (s : String) : Option Rat :=
  let cs := (pstrip s).toList
  let sgn : Bool × List Char :=
    match cs with
    | [] => (false, [])
    | c :: rest =>
      if c = '-' then (true, rest)
      else if c = '+' then (false, rest)
      else (false, c :: rest)
  match splitDot sgn.2 with
  | (ip, none) =>
    if !ip.isEmpty && ip.all Char.isDigit then
      let mag : Rat := (digitsVal ip : Nat)
      some (if sgn.1 then -mag else mag)
    else none
  | (ip, some fp) =>
    if (!ip.isEmpty || !fp.isEmpty) && ip.all Char.isDigit && fp.all Char.isDigit then
      let mag : Rat := (digitsVal ip : Nat) + (digitsVal fp : Nat) / ((10 : Rat) ^ fp.length)
      some (if sgn.1 then -mag else mag)
    else none

/-- `pd.to_numeric(errors="coerce")` on a cell. -/
def toNumericCell : Cell → Option Rat
  | Cell.num q => some q
  | Cell.boolv b => some (if b then 1 else 0)
  | Cell.missing => none
  | Cell.str s => parseNum s

/-- The mobile-service truthiness rule: text cells by membership in
the truthy set, boolean cells directly, numeric cells by Python bool
coercion; a missing cell lives in a non-object column, where
`astype(bool)` maps NaN to `True`. -/
def truthyCell : Cell → Bool
  | Cell.str s => ["true", "yes", "y", "1"].contains (lowerStr s)
  | Cell.boolv b => b
  | Cell.num q => decide (q ≠ 0)
  | Cell.missing => true

/-- The structured filter request (one optional criterion per predicate).
`none` models an unsupplied argument; for the interactive form, whose
numeric fields always carry a number and default to `0`, `none` and
`some 0` both model the untouched field. -/
structure FilterRequest where
  city : Option String
  neighborhood : Option String
  gender : Option String
  priceMin : Option Rat
  priceMax : Option Rat
  ratingMin : Option Rat
  reviewsMin : Option Rat
  yearsMin : Option Rat
  mobile : Bool
  modalities : Option String
  languages : Option String
  text : Option String
  available : Option String
deriving DecidableEq

/-- The filter request with no criteria set. -/
def emptyRequest : FilterRequest :=
  ⟨none, none, none, none, none, none, none, none, false, none, none, none, none⟩

/-- `value ≥ bound` on coerced numerics; missing satisfies no bound. -/
def geOk (v : Option Rat) (m : Rat) : Bool :=
  match v with
  | some x => decide (m ≤ x)
  | none => false

/-- `value ≤ bound` on coerced numerics; missing satisfies no bound. -/
def leOk (v : Option Rat) (m : Rat) : Bool :=
  match v with
  | some x => decide (x ≤ m)
  | none => false

/-- City criterion: case-insensitive exact match, active only when the
argument is a nonempty string and the city column resolved. -/
def cityOk (hs : List String) (F : FilterRequest) (r : List Cell) : Bool :=
  match F.city, autodetectColumns hs "city" with
  | some c, some h =>
    if c = "" then true
    else lowerStr (cellStr (cellAt hs r h)) == lowerStr c
  | _, _ => true

/-- Neighborhood criterion: case-insensitive substring match. -/
def neighborhoodOk (hs : List String) (F : FilterRequest) (r : List Cell) : Bool :=
  match F.neighborhood, autodetectColumns hs "neighborhood" with
  | some c, some h =>
    if c = "" then true
    else substrB (lowerStr c).toList (lowerStr (cellStr (cellAt hs r h))).toList
  | _, _ => true

/-- Gender criterion: case-insensitive exact match. -/
def genderOk (hs : List String) (F : FilterRequest) (r : List Cell) : Bool :=
  match F.gender, autodetectColumns hs "gender" with
  | some c, some h =>
    if c = "" then true
    else lowerStr (cellStr (cellAt hs r h)) == lowerStr c
  | _, _ => true

/-- Price range criterion (command line): both bounds guarded by the price
column resolving, each bound applied only when supplied. -/
def priceOk (hs : List String) (F : FilterRequest) (r : List Cell) : Bool :=
  match autodetectColumns hs "price" with
  | none => true
  | some h =>
    let v := toNumericCell (cellAt hs r h)
    (match F.priceMin with
     | none => true
     | some m => geOk v m) &&
    (match F.priceMax with
     | none => true
     | some m => leOk v m)

/-- Rating minimum (command line). -/
def ratingOk (hs : List String) (F : FilterRequest) (r : List Cell) : Bool :=
  match F.ratingMin, autodetectColumns hs "rating" with
  | some m, some h => geOk (toNumericCell (cellAt hs r h)) m
  | _, _ => true

/-- Reviews minimum (command line). -/
def reviewsOk (hs : List String) (F : FilterRequest) (r : List Cell) : Bool :=
  match F.reviewsMin, autodetectColumns hs "reviews" with
  | some m, some h => geOk (toNumericCell (cellAt hs r h)) m
  | _, _ => true

/-- Years-of-experience minimum (command line). -/
def yearsOk (hs : List String) (F : FilterRequest) (r : List Cell) : Bool :=
  match F.yearsMin, autodetectColumns hs "yearsexperience" with
  | some m, some h => geOk (toNumericCell (cellAt hs r h)) m
  | _, _ => true

/-- Mobile-service requirement. -/
def mobileOk (hs : List String) (F : FilterRequest) (r : List Cell) : Bool :=
  if F.mobile then
    match autodetectColumns hs "mobileservice" with
    | some h => truthyCell (cellAt hs r h)
    | none => true
  else true

/-- Modalities: all requested tokens must occur in the cell text. -/
def modalitiesOk (hs : List String) (F : FilterRequest) (r : List Cell) : Bool :=
  let req := split_list F.modalities
  match autodetectColumns hs "modalities" with
  | some h => if req.isEmpty then true else contains_all (cellStr (cellAt hs r h)) req
  | none => true

/-- Languages: all requested tokens must occur in the cell text. -/
def languagesOk (hs : List String) (F : FilterRequest) (r : List Cell) : Bool :=
  let req := split_list F.languages
  match autodetectColumns hs "languages" with
  | some h => if req.isEmpty then true else contains_all (cellStr (cellAt hs r h)) req
  | none => true

/-- Availability: at least one requested (already lower-cased, re-stripped)
day token occurs in the lower-cased cell text. -/
def availabilityOk (hs : List String) (F : FilterRequest) (r : List Cell) : Bool :=
  let req := (split_list F.available).map (fun d => lowerStr (pstrip d))
  match autodetectColumns hs "availability" with
  | some h =>
    if req.isEmpty then true
    else req.any (fun d => substrB d.toList (lowerStr (cellStr (cellAt hs r h))).toList)
  | none => true

/-- The text block the keyword criterion searches: a leading space plus the
bio cell (when the bio column resolved) followed by a leading space plus the
credentials cell (when that column resolved); the bio and credentials cells
joined by spaces. -/
def textBlock (hs : List String) (r : List Cell) : String :=
  (match autodetectColumns hs "bio" with
   | some h => " " ++ cellStr (cellAt hs r h)
   | none => "") ++
  (match autodetectColumns hs "credentials" with
   | some h => " " ++ cellStr (cellAt hs r h)
   | none => "")

/-- Keyword criterion: all requested keywords must occur in the joined
bio/credentials block.  Note the source guards only on the keyword list
being nonempty, not on either column resolving. -/
def textOk (hs : List String) (F : FilterRequest) (r : List Cell) : Bool :=
  let req := split_list F.text
  if req.isEmpty then true else contains_all (textBlock hs r) req

/-- One row of the command-line mask: the conjunction of all criteria in
source order. -/
def rowKeep (hs : List String) (F : FilterRequest) (r : List Cell) : Bool :=
  cityOk hs F r && neighborhoodOk hs F r && genderOk hs F r && priceOk hs F r &&
  ratingOk hs F r && reviewsOk hs F r && yearsOk hs F r && mobileOk hs F r &&
  modalitiesOk hs F r && languagesOk hs F r && availabilityOk hs F r && textOk hs F r

/-- `df[mask]`: the filtering step of the command-line pipeline. -/
def filterStep (d : Dataset) (F : FilterRequest) : List (List Cell) :=
  d.rows.filter (rowKeep d.headers F)

/-- Price range criterion of the interactive app: identical to the command
line except a bound is applied only when the form number is nonzero
(`if price_min:` truthiness). -/
def appPriceOk (hs : List String) (F : FilterRequest) (r : List Cell) : Bool :=
  match autodetectColumns hs "price" with
  | none => true
  | some h =>
    let v := toNumericCell (cellAt hs r h)
    (match F.priceMin with
     | none => true
     | some m => if m = 0 then true else geOk v m) &&
    (match F.priceMax with
     | none => true
     | some m => if m = 0 then true else leOk v m)

/-- Rating minimum of the interactive app (`if rating_min and col(...)`). -/
def appRatingOk (hs : List String) (F : FilterRequest) (r : List Cell) : Bool :=
  match F.ratingMin, autodetectColumns hs "rating" with
  | some m, some h => if m = 0 then true else geOk (toNumericCell (cellAt hs r h)) m
  | _, _ => true

/-- Reviews minimum of the interactive app. -/
def appReviewsOk (hs : List String) (F : FilterRequest) (r : List Cell) : Bool :=
  match F.reviewsMin, autodetectColumns hs "reviews" with
  | some m, some h => if m = 0 then true else geOk (toNumericCell (cellAt hs r h)) m
  | _, _ => true

/-- Years minimum of the interactive app. -/
def appYearsOk (hs : List String) (F : FilterRequest) (r : List Cell) : Bool :=
  match F.yearsMin, autodetectColumns hs "yearsexperience" with
  | some m, some h => if m = 0 then true else geOk (toNumericCell (cellAt hs r h)) m
  | _, _ => true

/-- Modalities criterion of the interactive app (its own `contains_all`). -/
def appModalitiesOk (hs : List String) (F : FilterRequest) (r : List Cell) : Bool :=
  let req := split_list F.modalities
  match autodetectColumns hs "modalities" with
  | some h => if req.isEmpty then true else contains_all_app (cellStr (cellAt hs r h)) req
  | none => true

/-- Languages criterion of the interactive app. -/
def appLanguagesOk (hs : List String) (F : FilterRequest) (r : List Cell) : Bool :=
  let req := split_list F.languages
  match autodetectColumns hs "languages" with
  | some h => if req.isEmpty then true else contains_all_app (cellStr (cellAt hs r h)) req
  | none => true

/-- Availability criterion of the interactive app: the day tokens are the
split pieces lower-cased (stripped once by the comprehension). -/
def appAvailabilityOk (hs : List String) (F : FilterRequest) (r : List Cell) : Bool :=
  let req := (split_list F.available).map lowerStr
  match autodetectColumns hs "availability" with
  | some h =>
    if req.isEmpty then true
    else req.any (fun d => substrB d.toList (lowerStr (cellStr (cellAt hs r h))).toList)
  | none => true

/-- Keyword criterion of the interactive app (its own `contains_all`). -/
def appTextOk (hs : List String) (F : FilterRequest) (r : List Cell) : Bool :=
  let req := split_list F.text
  if req.isEmpty then true else contains_all_app (textBlock hs r) req

/-- One row of the interactive mask.  The city, neighborhood, gender and
mobile criteria are textually identical in the two sources and share one
definition here. -/
def rowKeepApp (hs : List String) (F : FilterRequest) (r : List Cell) : Bool :=
  cityOk hs F r && neighborhoodOk hs F r && genderOk hs F r && appPriceOk hs F r &&
  appRatingOk hs F r && appReviewsOk hs F r && appYearsOk hs F r && mobileOk hs F r &&
  appModalitiesOk hs F r && appLanguagesOk hs F r && appAvailabilityOk hs F r &&
  appTextOk hs F r

/-- The filtering step of the interactive pipeline. -/
def filterStepApp (d : Dataset) (F : FilterRequest) : List (List Cell) :=
  d.rows.filter (rowKeepApp d.headers F)

/-- Three-way comparison from a linear order. -/
def cmp3 {α : Type} [LinearOrder α] (a b : α) : Ordering :=
  if a < b then Ordering.lt else if a = b then Ordering.eq else Ordering.gt

/-- Rank used to totalise comparison across cell kinds.  A real pandas
column is homogeneous (mixed-type object columns raise on sort), so the
cross-kind branch is an arbitrary totalisation no claim depends on. -/
def kindRank : Cell → Nat
  | Cell.num _ => 0
  | Cell.str _ => 1
  | Cell.boolv _ => 2
  | Cell.missing => 3

/-- Compare two cells of one sort column: numerics numerically, strings
lexicographically, booleans false-before-true. -/
def cmpCell : Cell → Cell → Ordering
  | Cell.num a, Cell.num b => cmp3 a b
  | Cell.str a, Cell.str b => cmp3 a b
  | Cell.boolv a, Cell.boolv b => cmp3 a b
  | a, b => cmp3 (kindRank a) (kindRank b)

/-- Per-key comparison under a direction flag: missing values order after
every present value regardless of direction (`na_position="last"`), and a
descending key reverses only the present-value comparison. -/
def keyCmp (asc : Bool) (a b : Cell) : Ordering :=
  match a, b with
  | Cell.missing, Cell.missing => Ordering.eq
  | Cell.missing, _ => Ordering.gt
  | _, Cell.missing => Ordering.lt
  | x, y => if asc then cmpCell x y else (cmpCell x y).swap

/-- Lexicographic comparison of two rows over the resolved sort keys, in
the order given, each with its own direction flag. -/
def rowCmp (hs : List String) : List (String × Bool) → List Cell → List Cell → Ordering
  | [], _, _ => Ordering.eq
  | (h, asc) :: ks, r, s =>
    match keyCmp asc (cellAt hs r h) (cellAt hs s h) with
    | Ordering.eq => rowCmp hs ks r s
    | c => c

/-- The comparison `sort_values` actually sorts by: the key comparison with
ties broken by the original row position, which is exactly a stable
lexicographic multi-key sort (`np.lexsort`). -/
def rowCmpIdx (hs : List String) (ks : List (String × Bool)) (a b : Nat × List Cell) : Ordering :=
  match rowCmp hs ks a.2 b.2 with
  | Ordering.eq => cmp3 a.1 b.1
  | c => c

/-- The total order on position-decorated rows used by the sort. -/
def rowLE (hs : List String) (ks : List (String × Bool)) (a b : Nat × List Cell) : Prop :=
  ¬ rowCmpIdx hs ks a b = Ordering.gt

instance rowLEDecidable (hs : List String) (ks : List (String × Bool)) :
    DecidableRel (rowLE hs ks) :=
  fun a b => inferInstanceAs (Decidable (¬ rowCmpIdx hs ks a b = Ordering.gt))

/-- `sort_values` on position-decorated rows. -/
def sortRowsIdx (hs : List String) (ks : List (String × Bool)) (rows : List (List Cell)) :
    List (Nat × List Cell) :=
  List.insertionSort (rowLE hs ks) rows.enum

/-- `result.sort_values(by=by, ascending=ascending)`. -/
def sortRows (hs : List String) (ks : List (String × Bool)) (rows : List (List Cell)) :
    List (List Cell) :=
  (sortRowsIdx hs ks rows).map Prod.snd

/-- `args.sort.split(",")` with stripping and dropping of blank pieces. -/
def parseSortKeysRaw (s : String) : List String :=
  (((splitChP (fun c => c = ',') s.toList).map String.mk).map pstrip).filter (fun t => t != "")

/-- Python `k.startswith("-")`. -/
def startsDash (s : String) : Bool :=
  match s.toList with
  | c :: _ => c = '-'
  | [] => false

/-- Python `k[1:]`. -/
def dropFirst (s : String) : String :=
  String.mk (s.toList.drop 1)

/-- Resolve one requested sort key in the command-line pipeline: exact
header match, else resolved canonical field, else the first header matching
case-insensitively, else unresolved. -/
def resolveKeyCLI (hs : List String) (key : String) : Option String :=
  if hs.contains key then some key
  else
    match ALIASES.lookup (lowerStr key) with
    | some _ =>
      match autodetectColumns hs (lowerStr key) with
      | some c => some c
      | none =>
        match hs.filter (fun c => lowerStr c == lowerStr key) with
        | [] => none
        | c :: _ => some c
    | none =>
      match hs.filter (fun c => lowerStr c == lowerStr key) with
      | [] => none
      | c :: _ => some c

/-- The command-line sort-key loop: returns (`by`, `ascending`, warnings).
An unresolved key contributes a warning and, via `continue`, skips both the
`by` and the `ascending` append. -/
def resolveCLI (hs : List String) : List String → List String × List Bool × List String
  | [] => ([], [], [])
  | k :: rest =>
    let desc := startsDash k
    let key := if desc then dropFirst k else k
    let p := resolveCLI hs rest
    match resolveKeyCLI hs key with
    | some c => (c :: p.1, (!desc) :: p.2.1, p.2.2)
    | none => (p.1, p.2.1, key :: p.2.2)

/-- Resolve one requested sort key in the interactive app: exact header
match, else resolved canonical field; no case-insensitive fallback and no
warning. -/
def resolveKeyApp (hs : List String) (key : String) : Option String :=
  if hs.contains key then some key
  else
    match ALIASES.lookup (lowerStr key) with
    | some _ => autodetectColumns hs (lowerStr key)
    | none => none

/-- The interactive sort-key loop: `ascending.append(not desc)` sits outside
the resolution branch, so a dropped key still contributes a direction. -/
def resolveApp (hs : List String) : List String → List String × List Bool
  | [] => ([], [])
  | k :: rest =>
    let desc := startsDash k
    let key := if desc then dropFirst k else k
    let p := resolveApp hs rest
    match resolveKeyApp hs key with
    | some c => (c :: p.1, (!desc) :: p.2)
    | none => (p.1, (!desc) :: p.2)

/-- The headers mapped to resolved canonical fields, in enumeration order. -/
def preferredCols (hs : List String) : List String :=
  CANON_ORDER.filterMap (autodetectColumns hs)

/-- The output header order: resolved canonical headers first, then the
remaining headers in their original relative order. -/
def reorderHeaders (hs : List String) : List String :=
  preferredCols hs ++ hs.filter (fun c => !(preferredCols hs).contains c)

/-- `result[preferred + trailing]`: reorder the columns of a dataset. -/
def reorderDataset (d : Dataset) : Dataset :=
  let newHs := reorderHeaders d.headers
  ⟨newHs, d.rows.map (fun r => newHs.map (fun h => cellAt d.headers r h))⟩

/-- The whole command-line pipeline after loading: filter, sort (collecting
warnings), reorder.  Returns the output dataset and the warned sort keys. -/
def cliPipeline (d : Dataset) (F : FilterRequest) (sortArg : Option String) :
    Dataset × List String :=
  let rows := filterStep d F
  match sortArg with
  | some s =>
    if s = "" then (reorderDataset ⟨d.headers, rows⟩, [])
    else
      let p := resolveCLI d.headers (parseSortKeysRaw s)
      let rows2 := if p.1.isEmpty then rows else sortRows d.headers (p.1.zip p.2.1) rows
      (reorderDataset ⟨d.headers, rows2⟩, p.2.2)
  | none => (reorderDataset ⟨d.headers, rows⟩, [])

/-- The whole interactive pipeline after upload: filter, sort, reorder.
When `by` is nonempty but shorter than `ascending` (an unresolved key was
dropped while its direction was kept), `sort_values` raises a length
mismatch and the run aborts: modelled as `none`. -/
def appPipeline (d : Dataset) (F : FilterRequest) (sortArg : Option String) :
    Option Dataset :=
  let rows := filterStepApp d F
  match sortArg with
  | some s =>
    if s = "" then some (reorderDataset ⟨d.headers, rows⟩)
    else
      let p := resolveApp d.headers (parseSortKeysRaw s)
      if p.1.isEmpty then some (reorderDataset ⟨d.headers, rows⟩)
      else if p.1.length = p.2.length then
        some (reorderDataset ⟨d.headers, sortRows d.headers (p.1.zip p.2) rows⟩)
      else none
  | none => some (reorderDataset ⟨d.headers, rows⟩)

/-! ### Ordering and comparator lemmas -/

theorem swap_eq_lt_iff (c : Ordering) : c.swap = Ordering.lt ↔ c = Ordering.gt := by
  cases c <;> simp [Ordering.swap]

theorem swap_eq_gt_iff (c : Ordering) : c.swap = Ordering.gt ↔ c = Ordering.lt := by
  cases c <;> simp [Ordering.swap]

theorem swap_eq_eq_iff (c : Ordering) : c.swap = Ordering.eq ↔ c = Ordering.eq := by
  cases c <;> simp [Ordering.swap]

theorem cmp3_eq_lt {α : Type} [LinearOrder α] {a b : α} : cmp3 a b = Ordering.lt ↔ a < b := by
  unfold cmp3
  split_ifs with h1 h2 <;> simp_all

theorem cmp3_eq_eq {α : Type} [LinearOrder α] {a b : α} : cmp3 a b = Ordering.eq ↔ a = b := by
  unfold cmp3
  split_ifs with h1 h2
  · simp [h1.ne]
  · simp [h2]
  · simp
    exact h2

theorem cmp3_eq_gt {α : Type} [LinearOrder α] {a b : α} : cmp3 a b = Ordering.gt ↔ b < a := by
  unfold cmp3
  split_ifs with h1 h2
  · simp [lt_asymm h1]
  · simp [h2]
  · simp
    exact lt_of_le_of_ne (le_of_not_lt h1) (fun hba => h2 hba.symm)

theorem cmpCell_eq_eq {a b : Cell} : cmpCell a b = Ordering.eq ↔ a = b := by
  cases a <;> cases b <;> simp [cmpCell, cmp3_eq_eq, kindRank]

theorem cmpCell_gt_iff_lt {a b : Cell} : cmpCell a b = Ordering.gt ↔ cmpCell b a = Ordering.lt := by
  cases a <;> cases b <;> simp [cmpCell, cmp3_eq_gt, cmp3_eq_lt]

theorem cmpCell_lt_trans {a b c : Cell} (h1 : cmpCell a b = Ordering.lt)
    (h2 : cmpCell b c = Ordering.lt) : cmpCell a c = Ordering.lt := by
  cases a <;> cases b <;> cases c <;>
    simp only [cmpCell, cmp3_eq_lt, kindRank] at h1 h2 ⊢ <;>
    first
      | trivial
      | omega
      | exact lt_trans h1 h2

theorem keyCmp_eq_eq (asc : Bool) (a b : Cell) : keyCmp asc a b = Ordering.eq ↔ a = b := by
  cases a <;> cases b <;> cases asc <;>
    simp [keyCmp, cmpCell_eq_eq, swap_eq_eq_iff]

theorem keyCmp_gt_iff_lt (asc : Bool) (a b : Cell) :
    keyCmp asc a b = Ordering.gt ↔ keyCmp asc b a = Ordering.lt := by
  cases a <;> cases b <;> cases asc <;>
    simp [keyCmp, swap_eq_gt_iff, swap_eq_lt_iff, cmpCell_gt_iff_lt]

theorem keyCmp_lt_trans {asc : Bool} {a b c : Cell} (h1 : keyCmp asc a b = Ordering.lt)
    (h2 : keyCmp asc b c = Ordering.lt) : keyCmp asc a c = Ordering.lt := by
  cases a <;> cases b <;> cases c <;> cases asc <;>
    simp only [keyCmp, Bool.false_eq_true, if_false, if_true, ite_true, ite_false,
      swap_eq_lt_iff, cmpCell_gt_iff_lt] at h1 h2 ⊢ <;>
    first
      | trivial
      | exact cmpCell_lt_trans h1 h2
      | exact cmpCell_lt_trans h2 h1

theorem keyCmp_swap (asc : Bool) (a b : Cell) : (keyCmp asc a b).swap = keyCmp asc b a := by
  rcases hab : keyCmp asc a b with _ | _ | _
  · rw [show Ordering.lt.swap = Ordering.gt from rfl]
    exact ((keyCmp_gt_iff_lt asc b a).mpr hab).symm ▸ rfl
  · rw [show Ordering.eq.swap = Ordering.eq from rfl]
    exact (((keyCmp_eq_eq asc b a).mpr ((keyCmp_eq_eq asc a b).mp hab).symm)).symm
  · rw [show Ordering.gt.swap = Ordering.lt from rfl]
    exact ((keyCmp_gt_iff_lt asc a b).mp hab).symm
theorem rowCmp_eq_iff (hs : List String) (ks : List (String × Bool)) (r s : List Cell) :
    rowCmp hs ks r s = Ordering.eq ↔ ∀ p ∈ ks, cellAt hs r p.1 = cellAt hs s p.1 := by
  induction ks with
  | nil => simp [rowCmp]
  | cons k ks ih =>
    obtain ⟨h, asc⟩ := k
    rcases hk : keyCmp asc (cellAt hs r h) (cellAt hs s h) with _ | _ | _
    · simp only [rowCmp, hk, List.forall_mem_cons]
      constructor
      · intro hfalse
        exact absurd hfalse (by simp)
      · intro ⟨hc, _⟩
        exact absurd ((keyCmp_eq_eq asc _ _).mpr hc) (by simp [hk])
    · simp only [rowCmp, hk, List.forall_mem_cons, ih]
      have hc := (keyCmp_eq_eq asc _ _).mp hk
      simp [hc]
    · simp only [rowCmp, hk, List.forall_mem_cons]
      constructor
      · intro hfalse
        exact absurd hfalse (by simp)
      · intro ⟨hc, _⟩
        exact absurd ((keyCmp_eq_eq asc _ _).mpr hc) (by simp [hk])

theorem rowCmp_congr_left (hs : List String) (ks : List (String × Bool)) {r s : List Cell}
    (t : List Cell) (hrs : ∀ p ∈ ks, cellAt hs r p.1 = cellAt hs s p.1) :
    rowCmp hs ks r t = rowCmp hs ks s t := by
  induction ks with
  | nil => simp [rowCmp]
  | cons k ks ih =>
    obtain ⟨h, asc⟩ := k
    obtain ⟨h1, h2⟩ := List.forall_mem_cons.mp hrs
    simp only [rowCmp, h1]
    rcases keyCmp asc (cellAt hs s h) (cellAt hs t h) with _ | _ | _
    · rfl
    · exact ih h2
    · rfl

theorem rowCmp_congr_right (hs : List String) (ks : List (String × Bool)) {s t : List Cell}
    (r : List Cell) (hst : ∀ p ∈ ks, cellAt hs s p.1 = cellAt hs t p.1) :
    rowCmp hs ks r s = rowCmp hs ks r t := by
  induction ks with
  | nil => simp [rowCmp]
  | cons k ks ih =>
    obtain ⟨h, asc⟩ := k
    obtain ⟨h1, h2⟩ := List.forall_mem_cons.mp hst
    simp only [rowCmp, h1]
    rcases keyCmp asc (cellAt hs r h) (cellAt hs t h) with _ | _ | _
    · rfl
    · exact ih h2
    · rfl

theorem rowCmp_lt_trans (hs : List String) (ks : List (String × Bool)) {r s t : List Cell}
    (h1 : rowCmp hs ks r s = Ordering.lt) (h2 : rowCmp hs ks s t = Ordering.lt) :
    rowCmp hs ks r t = Ordering.lt := by
  induction ks with
  | nil => simp [rowCmp] at h1
  | cons k ks ih =>
    obtain ⟨h, asc⟩ := k
    simp only [rowCmp] at h1 h2 ⊢
    rcases hrs : keyCmp asc (cellAt hs r h) (cellAt hs s h) with _ | _ | _ <;> rw [hrs] at h1
    · rcases hst : keyCmp asc (cellAt hs s h) (cellAt hs t h) with _ | _ | _ <;> rw [hst] at h2
      · rw [keyCmp_lt_trans hrs hst]
      · rw [← (keyCmp_eq_eq asc _ _).mp hst, hrs]
      · exact absurd h2 (by simp)
    · have hc := (keyCmp_eq_eq asc _ _).mp hrs
      rcases hst : keyCmp asc (cellAt hs s h) (cellAt hs t h) with _ | _ | _ <;> rw [hst] at h2
      · rw [hc, hst]
      · rw [hc, hst]
        exact ih h1 h2
      · exact absurd h2 (by simp)
    · exact absurd h1 (by simp)

theorem rowCmpIdx_trans (hs : List String) (ks : List (String × Bool))
    {a b c : Nat × List Cell} (h1 : ¬ rowCmpIdx hs ks a b = Ordering.gt)
    (h2 : ¬ rowCmpIdx hs ks b c = Ordering.gt) : ¬ rowCmpIdx hs ks a c = Ordering.gt := by
  unfold rowCmpIdx at h1 h2 ⊢
  rcases hab : rowCmp hs ks a.2 b.2 with _ | _ | _ <;> rw [hab] at h1
  · rcases hbc : rowCmp hs ks b.2 c.2 with _ | _ | _ <;> rw [hbc] at h2
    · rw [rowCmp_lt_trans hs ks hab hbc]
      simp
    · rw [← rowCmp_congr_right hs ks a.2 ((rowCmp_eq_iff hs ks _ _).mp hbc), hab]
      simp
    · exact absurd rfl h2
  · have hcells := (rowCmp_eq_iff hs ks _ _).mp hab
    rcases hbc : rowCmp hs ks b.2 c.2 with _ | _ | _ <;> rw [hbc] at h2
    · rw [rowCmp_congr_left hs ks c.2 hcells, hbc]
      simp
    · rw [rowCmp_congr_left hs ks c.2 hcells, hbc]
      intro hgt
      have hle1 : a.1 ≤ b.1 := by
        by_contra hgt1
        exact h1 (cmp3_eq_gt.mpr (Nat.lt_of_not_le hgt1))
      have hle2 : b.1 ≤ c.1 := by
        by_contra hgt2
        exact h2 (cmp3_eq_gt.mpr (Nat.lt_of_not_le hgt2))
      exact absurd (cmp3_eq_gt.mp hgt) (Nat.not_lt.mpr (le_trans hle1 hle2))
    · exact absurd rfl h2
  · exact absurd rfl h1

theorem rowCmp_swap (hs : List String) (ks : List (String × Bool)) (r s : List Cell) :
    (rowCmp hs ks r s).swap = rowCmp hs ks s r := by
  induction ks with
  | nil => simp [rowCmp, Ordering.swap]
  | cons k ks ih =>
    obtain ⟨h, asc⟩ := k
    simp only [rowCmp]
    rcases hk : keyCmp asc (cellAt hs r h) (cellAt hs s h) with _ | _ | _ <;>
      rw [← keyCmp_swap asc (cellAt hs r h) (cellAt hs s h), hk]
    · rfl
    · exact ih
    · rfl

theorem rowCmpIdx_total (hs : List String) (ks : List (String × Bool))
    (a b : Nat × List Cell) :
    ¬ rowCmpIdx hs ks a b = Ordering.gt ∨ ¬ rowCmpIdx hs ks b a = Ordering.gt := by
  unfold rowCmpIdx
  rcases hab : rowCmp hs ks a.2 b.2 with _ | _ | _
  · left
    simp
  · rw [← rowCmp_swap hs ks a.2 b.2, hab]
    rcases Nat.lt_trichotomy a.1 b.1 with hlt | heq | hgt
    · left
      intro hc
      exact absurd (cmp3_eq_gt.mp hc) (Nat.lt_asymm hlt)
    · left
      intro hc
      exact absurd (cmp3_eq_gt.mp hc) (heq ▸ Nat.lt_irrefl _)
    · right
      intro hc
      exact absurd (cmp3_eq_gt.mp hc) (Nat.lt_asymm hgt)
  · right
    rw [← rowCmp_swap hs ks a.2 b.2, hab]
    simp [Ordering.swap]

theorem sortRowsIdx_sorted (hs : List String) (ks : List (String × Bool))
    (rows : List (List Cell)) : List.Sorted (rowLE hs ks) (sortRowsIdx hs ks rows) := by
  haveI : IsTotal (Nat × List Cell) (rowLE hs ks) := ⟨rowCmpIdx_total hs ks⟩
  haveI : IsTrans (Nat × List Cell) (rowLE hs ks) :=
    ⟨fun _ _ _ h1 h2 => rowCmpIdx_trans hs ks h1 h2⟩
  exact List.sorted_insertionSort _ _

theorem sortRowsIdx_perm (hs : List String) (ks : List (String × Bool))
    (rows : List (List Cell)) : List.Perm (sortRowsIdx hs ks rows) rows.enum :=
  List.perm_insertionSort _ _

theorem sortRowsIdx_fst_nodup (hs : List String) (ks : List (String × Bool))
    (rows : List (List Cell)) : ((sortRowsIdx hs ks rows).map Prod.fst).Nodup :=
  (((sortRowsIdx_perm hs ks rows).map Prod.fst).nodup_iff).mpr (List.nodup_enum_map_fst rows)
theorem keyCmp_missing_left (asc : Bool) {x : Cell} (hx : x ≠ Cell.missing) :
    keyCmp asc Cell.missing x = Ordering.gt := by
  cases x <;> first | exact absurd rfl hx | rfl

/-- C5: the multi-key sort is stable. -/
theorem c5_sort_stable (hs : List String) (ks : List (String × Bool))
    (rows : List (List Cell)) (p q : Nat)
    (hp : p < (sortRowsIdx hs ks rows).length) (hq : q < (sortRowsIdx hs ks rows).length)
    (hpq : p < q)
    (heq : rowCmp hs ks ((sortRowsIdx hs ks rows)[p]).2 ((sortRowsIdx hs ks rows)[q]).2
      = Ordering.eq) :
    ((sortRowsIdx hs ks rows)[p]).1 < ((sortRowsIdx hs ks rows)[q]).1 := by
  have hsorted := sortRowsIdx_sorted hs ks rows
  have hrel := hsorted.rel_get_of_lt (a := ⟨p, hp⟩) (b := ⟨q, hq⟩) (Fin.mk_lt_mk.mpr hpq)
  simp only [List.get_eq_getElem] at hrel
  have hrel2 : ¬ rowCmpIdx hs ks ((sortRowsIdx hs ks rows)[p]) ((sortRowsIdx hs ks rows)[q])
      = Ordering.gt := hrel
  unfold rowCmpIdx at hrel2
  rw [heq] at hrel2
  have hcmp : ¬ cmp3 ((sortRowsIdx hs ks rows)[p]).1 ((sortRowsIdx hs ks rows)[q]).1
      = Ordering.gt := hrel2
  have hle : ((sortRowsIdx hs ks rows)[p]).1 ≤ ((sortRowsIdx hs ks rows)[q]).1 :=
    Nat.le_of_not_lt (fun hlt => hcmp (cmp3_eq_gt.mpr hlt))
  have hpw : ((sortRowsIdx hs ks rows).map Prod.fst).Pairwise (· ≠ ·) :=
    sortRowsIdx_fst_nodup hs ks rows
  have hpw2 := List.pairwise_map.mp hpw
  have hne := List.pairwise_iff_get.mp hpw2 ⟨p, hp⟩ ⟨q, hq⟩ (Fin.mk_lt_mk.mpr hpq)
  simp only [List.get_eq_getElem] at hne
  exact lt_of_le_of_ne hle hne

/-- C2 (amended): under a single-key sort, rows with a missing value in the
key are placed after every row with a present value, for both directions. -/
theorem c2_missing_sorts_last (hs : List String) (k : String) (asc : Bool)
    (rows : List (List Cell)) (p q : Nat)
    (hp : p < (sortRows hs [(k, asc)] rows).length)
    (hq : q < (sortRows hs [(k, asc)] rows).length)
    (hmiss : cellAt hs ((sortRows hs [(k, asc)] rows)[p]) k = Cell.missing)
    (hpres : cellAt hs ((sortRows hs [(k, asc)] rows)[q]) k ≠ Cell.missing) :
    q < p := by
  have hp2 : p < (sortRowsIdx hs [(k, asc)] rows).length := by
    simpa [sortRows] using hp
  have hq2 : q < (sortRowsIdx hs [(k, asc)] rows).length := by
    simpa [sortRows] using hq
  have hgp : (sortRows hs [(k, asc)] rows)[p] = ((sortRowsIdx hs [(k, asc)] rows)[p]).2 := by
    simp [sortRows]
  have hgq : (sortRows hs [(k, asc)] rows)[q] = ((sortRowsIdx hs [(k, asc)] rows)[q]).2 := by
    simp [sortRows]
  rw [hgp] at hmiss
  rw [hgq] at hpres
  by_contra hqp
  rcases Nat.lt_or_ge p q with hpq | hge
  · have hsorted := sortRowsIdx_sorted hs [(k, asc)] rows
    have hrel := hsorted.rel_get_of_lt (a := ⟨p, hp2⟩) (b := ⟨q, hq2⟩) (Fin.mk_lt_mk.mpr hpq)
    simp only [List.get_eq_getElem] at hrel
    have hrel2 : ¬ rowCmpIdx hs [(k, asc)] ((sortRowsIdx hs [(k, asc)] rows)[p])
        ((sortRowsIdx hs [(k, asc)] rows)[q]) = Ordering.gt := hrel
    unfold rowCmpIdx rowCmp at hrel2
    rw [hmiss] at hrel2
    rw [keyCmp_missing_left asc hpres] at hrel2
    exact hrel2 rfl
  · have hpq : p = q := Nat.le_antisymm (Nat.le_of_not_lt hqp) hge
    subst hpq
    exact hpres hmiss

theorem c5_sort_stable_witness :
    ((sortRowsIdx ["Price", "Rating"] [("Price", true), ("Rating", false)]
        [[Cell.num 100, Cell.num 5], [Cell.num 100, Cell.num 5]]).get ⟨0, by decide⟩).1
      < ((sortRowsIdx ["Price", "Rating"] [("Price", true), ("Rating", false)]
        [[Cell.num 100, Cell.num 5], [Cell.num 100, Cell.num 5]]).get ⟨1, by decide⟩).1 := by
  have h := c5_sort_stable ["Price", "Rating"] [("Price", true), ("Rating", false)]
    [[Cell.num 100, Cell.num 5], [Cell.num 100, Cell.num 5]] 0 1 (by decide) (by decide)
    (by decide) (by decide)
  simpa using h

/-- C2 (counterexample): `sort_values` places a missing value last in both
directions; in ascending order it therefore behaves as the highest value,
not the lowest as the claim states (which would put the missing row first). -/
theorem c2_claim_counterexample :
    sortRows ["Price"] [("Price", true)] [[Cell.missing], [Cell.num 5]]
      = [[Cell.num 5], [Cell.missing]] ∧
    sortRows ["Price"] [("Price", false)] [[Cell.missing], [Cell.num 5]]
      = [[Cell.num 5], [Cell.missing]] ∧
    sortRows ["Price"] [("Price", true)] [[Cell.missing], [Cell.num 5]]
      ≠ [[Cell.missing], [Cell.num 5]] ∧
    sortRows ["Price"] [("Price", false)] [[Cell.missing], [Cell.num 5]]
      ≠ [[Cell.missing], [Cell.num 5]] := by
  refine ⟨by decide, by decide, by decide, by decide⟩

theorem c2_missing_sorts_last_witness :
    cellAt ["Price"]
        ((sortRows ["Price"] [("Price", true)] [[Cell.missing], [Cell.num 5]]).getD 1 [])
        "Price" = Cell.missing ∧ (0 : Nat) < 1 :=
  ⟨by decide,
   c2_missing_sorts_last ["Price"] "Price" true [[Cell.missing], [Cell.num 5]] 1 0
     (by decide) (by decide) (by decide) (by decide)⟩
theorem cityOk_unresolved (hs : List String) (F : FilterRequest) (r : List Cell)
    (h : autodetectColumns hs "city" = none) : cityOk hs F r = true := by
  unfold cityOk
  rw [h]
  cases F.city <;> rfl

theorem neighborhoodOk_unresolved (hs : List String) (F : FilterRequest) (r : List Cell)
    (h : autodetectColumns hs "neighborhood" = none) : neighborhoodOk hs F r = true := by
  unfold neighborhoodOk
  rw [h]
  cases F.neighborhood <;> rfl

theorem genderOk_unresolved (hs : List String) (F : FilterRequest) (r : List Cell)
    (h : autodetectColumns hs "gender" = none) : genderOk hs F r = true := by
  unfold genderOk
  rw [h]
  cases F.gender <;> rfl

theorem priceOk_unresolved (hs : List String) (F : FilterRequest) (r : List Cell)
    (h : autodetectColumns hs "price" = none) : priceOk hs F r = true := by
  unfold priceOk
  rw [h]

theorem ratingOk_unresolved (hs : List String) (F : FilterRequest) (r : List Cell)
    (h : autodetectColumns hs "rating" = none) : ratingOk hs F r = true := by
  unfold ratingOk
  rw [h]
  cases F.ratingMin <;> rfl

theorem reviewsOk_unresolved (hs : List String) (F : FilterRequest) (r : List Cell)
    (h : autodetectColumns hs "reviews" = none) : reviewsOk hs F r = true := by
  unfold reviewsOk
  rw [h]
  cases F.reviewsMin <;> rfl

theorem yearsOk_unresolved (hs : List String) (F : FilterRequest) (r : List Cell)
    (h : autodetectColumns hs "yearsexperience" = none) : yearsOk hs F r = true := by
  unfold yearsOk
  rw [h]
  cases F.yearsMin <;> rfl

theorem mobileOk_unresolved (hs : List String) (F : FilterRequest) (r : List Cell)
    (h : autodetectColumns hs "mobileservice" = none) : mobileOk hs F r = true := by
  unfold mobileOk
  rw [h]
  cases F.mobile <;> rfl

theorem modalitiesOk_unresolved (hs : List String) (F : FilterRequest) (r : List Cell)
    (h : autodetectColumns hs "modalities" = none) : modalitiesOk hs F r = true := by
  unfold modalitiesOk
  rw [h]

theorem languagesOk_unresolved (hs : List String) (F : FilterRequest) (r : List Cell)
    (h : autodetectColumns hs "languages" = none) : languagesOk hs F r = true := by
  unfold languagesOk
  rw [h]

theorem availabilityOk_unresolved (hs : List String) (F : FilterRequest) (r : List Cell)
    (h : autodetectColumns hs "availability" = none) : availabilityOk hs F r = true := by
  unfold availabilityOk
  rw [h]

theorem split_list_mem_ne (o : Option String) {t : String} (ht : t ∈ split_list o) :
    t ≠ "" := by
  rcases o with _ | s
  · simp [split_list] at ht
  · simp only [split_list] at ht
    by_cases hs : s = ""
    · simp [hs] at ht
    · rw [if_neg hs] at ht
      have := List.of_mem_filter ht
      simpa using this

theorem textOk_both_unresolved (hs : List String) (F : FilterRequest) (r : List Cell)
    (hbio : autodetectColumns hs "bio" = none)
    (hcred : autodetectColumns hs "credentials" = none)
    (hreq : split_list F.text ≠ []) : textOk hs F r = false := by
  unfold textOk
  have hblock : textBlock hs r = "" := by
    unfold textBlock
    rw [hbio, hcred]
    rfl
  rcases hsp : split_list F.text with _ | ⟨t, ts⟩
  · exact absurd hsp hreq
  · have htne : t ≠ "" := split_list_mem_ne F.text (by rw [hsp]; exact List.mem_cons_self t ts)
    rw [hblock]
    simp only [List.isEmpty_cons, Bool.false_eq_true, if_false]
    unfold contains_all
    simp only [List.all_cons, Bool.and_eq_false_iff]
    left
    have hempty : (lowerStr "").toList = [] := rfl
    rw [hempty]
    unfold substrB
    rw [Bool.eq_false_iff]
    intro hemp
    rw [List.isEmpty_iff] at hemp
    apply htne
    have hlen : t.toList.length = 0 := by
      have := congrArg List.length hemp
      simpa [lowerStr] using this
    have hdata : t.toList = [] := List.length_eq_zero.mp hlen
    cases t with
    | mk data =>
      rw [show ("" : String) = String.mk [] from rfl]
      exact congrArg String.mk hdata
/-- C1 (amended): every criterion guarded by a single canonical field is a
no-op when that field is unresolved; the keyword criterion ignores an
unresolved bio or credentials column individually, but when both are
unresolved and a keyword list is specified, the searched block is empty, no
keyword matches, and the criterion excludes every row rather than none. -/
theorem c1_unresolved_noop (hs : List String) (F : FilterRequest) (r : List Cell) :
    (autodetectColumns hs "city" = none → cityOk hs F r = true) ∧
    (autodetectColumns hs "neighborhood" = none → neighborhoodOk hs F r = true) ∧
    (autodetectColumns hs "gender" = none → genderOk hs F r = true) ∧
    (autodetectColumns hs "price" = none → priceOk hs F r = true) ∧
    (autodetectColumns hs "rating" = none → ratingOk hs F r = true) ∧
    (autodetectColumns hs "reviews" = none → reviewsOk hs F r = true) ∧
    (autodetectColumns hs "yearsexperience" = none → yearsOk hs F r = true) ∧
    (autodetectColumns hs "mobileservice" = none → mobileOk hs F r = true) ∧
    (autodetectColumns hs "modalities" = none → modalitiesOk hs F r = true) ∧
    (autodetectColumns hs "languages" = none → languagesOk hs F r = true) ∧
    (autodetectColumns hs "availability" = none → availabilityOk hs F r = true) ∧
    (autodetectColumns hs "bio" = none → autodetectColumns hs "credentials" = none →
      split_list F.text ≠ [] → textOk hs F r = false) :=
  ⟨cityOk_unresolved hs F r, neighborhoodOk_unresolved hs F r, genderOk_unresolved hs F r,
   priceOk_unresolved hs F r, ratingOk_unresolved hs F r, reviewsOk_unresolved hs F r,
   yearsOk_unresolved hs F r, mobileOk_unresolved hs F r, modalitiesOk_unresolved hs F r,
   languagesOk_unresolved hs F r, availabilityOk_unresolved hs F r,
   textOk_both_unresolved hs F r⟩

/-- C1 (counterexample): with a keyword list specified and neither a bio
nor a credentials column present, the keyword criterion excludes every row,
so filtering does not retain the dataset as the claim states. -/
theorem c1_claim_counterexample :
    filterStep ⟨["Name"], [[Cell.str "Alice"]]⟩ { emptyRequest with text := some "spa" } = [] ∧
    filterStep ⟨["Name"], [[Cell.str "Alice"]]⟩ { emptyRequest with text := some "spa" }
      ≠ (Dataset.mk ["Name"] [[Cell.str "Alice"]]).rows :=
  ⟨by decide, by decide⟩

theorem c1_unresolved_noop_witness :
    cityOk ["Name"] { emptyRequest with city := some "Vancouver" } [Cell.str "Alice"] = true ∧
    textOk ["Name"] { emptyRequest with text := some "spa" } [Cell.str "Alice"] = false := by
  constructor
  · exact (c1_unresolved_noop ["Name"] _ [Cell.str "Alice"]).1 (by decide)
  · exact (c1_unresolved_noop ["Name"] { emptyRequest with text := some "spa" }
      [Cell.str "Alice"]).2.2.2.2.2.2.2.2.2.2.2 (by decide) (by decide) (by decide)

theorem rowKeep_empty (hs : List String) (r : List Cell) : rowKeep hs emptyRequest r = true := by
  have h1 : cityOk hs emptyRequest r = true := by
    unfold cityOk
    cases autodetectColumns hs "city" <;> rfl
  have h2 : neighborhoodOk hs emptyRequest r = true := by
    unfold neighborhoodOk
    cases autodetectColumns hs "neighborhood" <;> rfl
  have h3 : genderOk hs emptyRequest r = true := by
    unfold genderOk
    cases autodetectColumns hs "gender" <;> rfl
  have h4 : priceOk hs emptyRequest r = true := by
    unfold priceOk
    cases autodetectColumns hs "price" <;> rfl
  have h5 : ratingOk hs emptyRequest r = true := by
    unfold ratingOk
    cases autodetectColumns hs "rating" <;> rfl
  have h6 : reviewsOk hs emptyRequest r = true := by
    unfold reviewsOk
    cases autodetectColumns hs "reviews" <;> rfl
  have h7 : yearsOk hs emptyRequest r = true := by
    unfold yearsOk
    cases autodetectColumns hs "yearsexperience" <;> rfl
  have h8 : mobileOk hs emptyRequest r = true := rfl
  have h9 : modalitiesOk hs emptyRequest r = true := by
    unfold modalitiesOk
    cases autodetectColumns hs "modalities" <;> rfl
  have h10 : languagesOk hs emptyRequest r = true := by
    unfold languagesOk
    cases autodetectColumns hs "languages" <;> rfl
  have h11 : availabilityOk hs emptyRequest r = true := by
    unfold availabilityOk
    cases autodetectColumns hs "availability" <;> rfl
  have h12 : textOk hs emptyRequest r = true := rfl
  unfold rowKeep
  rw [h1, h2, h3, h4, h5, h6, h7, h8, h9, h10, h11, h12]
  rfl

/-- C6: with no criteria set, the filtering step returns exactly the rows
of the dataset, in order and unchanged. -/
theorem c6_no_criteria_identity (d : Dataset) : filterStep d emptyRequest = d.rows := by
  unfold filterStep
  apply List.filter_eq_self.mpr
  intro r _
  exact rowKeep_empty d.headers r

/-- C3 (code evaluated at the failing input): on headers `[Price]` with sort
request `foo,-price`, the command line warns about `foo`, drops it together
with its direction, and sorts descending by price; the interactive app emits
no warning and keeps the dropped key's direction, leaving `by` and
`ascending` misaligned, so its `sort_values` call raises and the run aborts
(modelled as `none`). -/
theorem c3_app_sort_misalignment :
    resolveCLI ["Price"] (parseSortKeysRaw "foo,-price") = (["Price"], [false], ["foo"]) ∧
    resolveApp ["Price"] (parseSortKeysRaw "foo,-price") = (["Price"], [true, false]) ∧
    appPipeline ⟨["Price"], [[Cell.num 1], [Cell.num 2]]⟩ emptyRequest (some "foo,-price")
      = none ∧
    (cliPipeline ⟨["Price"], [[Cell.num 1], [Cell.num 2]]⟩ emptyRequest
      (some "foo,-price")).1.rows = [[Cell.num 2], [Cell.num 1]] ∧
    (cliPipeline ⟨["Price"], [[Cell.num 1], [Cell.num 2]]⟩ emptyRequest
      (some "foo,-price")).2 = ["foo"] :=
  ⟨by decide, by decide, by decide, by decide, by decide⟩
/-- C7: under any of the numeric criteria, a text cell that does not parse
as a number (including the empty string) is treated as missing, never as
zero: with the field resolved, the criterion retains the row exactly when
its bound is unsupplied, and excludes it whenever the bound is active. -/
theorem c7_nonnumeric_cell_is_missing (hs : List String) (F : FilterRequest) (r : List Cell)
    (s : String) (hparse : parseNum s = none) :
    (∀ h, autodetectColumns hs "price" = some h → cellAt hs r h = Cell.str s →
      (priceOk hs F r = true ↔ F.priceMin = none ∧ F.priceMax = none)) ∧
    (∀ h, autodetectColumns hs "rating" = some h → cellAt hs r h = Cell.str s →
      (ratingOk hs F r = true ↔ F.ratingMin = none)) ∧
    (∀ h, autodetectColumns hs "reviews" = some h → cellAt hs r h = Cell.str s →
      (reviewsOk hs F r = true ↔ F.reviewsMin = none)) ∧
    (∀ h, autodetectColumns hs "yearsexperience" = some h → cellAt hs r h = Cell.str s →
      (yearsOk hs F r = true ↔ F.yearsMin = none)) := by
  refine ⟨?_, ?_, ?_, ?_⟩
  · intro h hcol hcell
    simp only [priceOk, hcol, hcell]
    cases hm1 : F.priceMin <;> cases hm2 : F.priceMax <;>
      simp [geOk, leOk, toNumericCell, hparse]
  · intro h hcol hcell
    simp only [ratingOk, hcol]
    cases hm : F.ratingMin <;> simp [hcell, geOk, toNumericCell, hparse]
  · intro h hcol hcell
    simp only [reviewsOk, hcol]
    cases hm : F.reviewsMin <;> simp [hcell, geOk, toNumericCell, hparse]
  · intro h hcol hcell
    simp only [yearsOk, hcol]
    cases hm : F.yearsMin <;> simp [hcell, geOk, toNumericCell, hparse]

theorem c7_nonnumeric_cell_is_missing_witness :
    priceOk ["Price"] { emptyRequest with priceMin := some 0 } [Cell.str "N/A"] = false ∧
    priceOk ["Price"] emptyRequest [Cell.str "N/A"] = true := by
  constructor
  · have h := (c7_nonnumeric_cell_is_missing ["Price"]
      { emptyRequest with priceMin := some 0 } [Cell.str "N/A"] "N/A" (by decide)).1
      "Price" (by decide) (by decide)
    rw [Bool.eq_false_iff]
    intro ht
    exact Option.noConfusion (h.mp ht).1
  · have h := (c7_nonnumeric_cell_is_missing ["Price"] emptyRequest [Cell.str "N/A"] "N/A"
      (by decide)).1 "Price" (by decide) (by decide)
    exact h.mpr ⟨rfl, rfl⟩

/-- C8: the modalities, languages and keyword criteria keep a row exactly
when every token of the comma/semicolon-split, stripped request occurs as a
case-insensitive substring of the cell text (for keywords: of the
space-joined bio/credentials block); tokens are matched independently. -/
theorem c8_all_tokens_independent (hs : List String) (F : FilterRequest) (r : List Cell) :
    (∀ h, autodetectColumns hs "modalities" = some h →
      (modalitiesOk hs F r = true ↔ ∀ t ∈ split_list F.modalities,
        substrB (lowerStr t).toList (lowerStr (cellStr (cellAt hs r h))).toList = true)) ∧
    (∀ h, autodetectColumns hs "languages" = some h →
      (languagesOk hs F r = true ↔ ∀ t ∈ split_list F.languages,
        substrB (lowerStr t).toList (lowerStr (cellStr (cellAt hs r h))).toList = true)) ∧
    (textOk hs F r = true ↔ ∀ t ∈ split_list F.text,
      substrB (lowerStr t).toList (lowerStr (textBlock hs r)).toList = true) := by
  refine ⟨?_, ?_, ?_⟩
  · intro h hcol
    simp only [modalitiesOk, hcol]
    by_cases hreq : (split_list F.modalities).isEmpty
    · rw [if_pos hreq]
      rw [List.isEmpty_iff.mp hreq]
      simp
    · rw [if_neg hreq]
      unfold contains_all
      exact List.all_eq_true
  · intro h hcol
    simp only [languagesOk, hcol]
    by_cases hreq : (split_list F.languages).isEmpty
    · rw [if_pos hreq]
      rw [List.isEmpty_iff.mp hreq]
      simp
    · rw [if_neg hreq]
      unfold contains_all
      exact List.all_eq_true
  · simp only [textOk]
    by_cases hreq : (split_list F.text).isEmpty
    · rw [if_pos hreq]
      rw [List.isEmpty_iff.mp hreq]
      simp
    · rw [if_neg hreq]
      unfold contains_all
      exact List.all_eq_true

theorem c8_all_tokens_independent_witness :
    modalitiesOk ["Modalities"] { emptyRequest with modalities := some "deep, sports" }
      [Cell.str "Deep Tissue; Sports massage"] = true ∧
    modalitiesOk ["Modalities"] { emptyRequest with modalities := some "deep, sports" }
      [Cell.str "Deep Tissue"] = false := by
  constructor
  · exact ((c8_all_tokens_independent ["Modalities"]
      { emptyRequest with modalities := some "deep, sports" }
      [Cell.str "Deep Tissue; Sports massage"]).1 "Modalities" (by decide)).mpr (by decide)
  · have h := (c8_all_tokens_independent ["Modalities"]
      { emptyRequest with modalities := some "deep, sports" }
      [Cell.str "Deep Tissue"]).1 "Modalities" (by decide)
    rw [Bool.eq_false_iff]
    intro ht
    have := h.mp ht "sports" (by decide)
    exact absurd this (by decide)
/-- C10: `astype(str)` renders a missing cell as the literal "nan" before
the string criteria run: city-equals with the string "nan" matches a row
whose city cell is missing, a substring criterion on a missing cell matches
exactly when its tokens occur in "nan", and the keyword block built from a
missing bio cell (credentials unresolved) is " nan". -/
theorem c10_missing_renders_nan (hs : List String) (F : FilterRequest) (r : List Cell) :
    cellStr Cell.missing = "nan" ∧
    (∀ h, autodetectColumns hs "city" = some h → cellAt hs r h = Cell.missing →
      F.city = some "nan" → cityOk hs F r = true) ∧
    (∀ h, autodetectColumns hs "modalities" = some h → cellAt hs r h = Cell.missing →
      modalitiesOk hs F r = contains_all "nan" (split_list F.modalities)) ∧
    (∀ h, autodetectColumns hs "bio" = some h → autodetectColumns hs "credentials" = none →
      cellAt hs r h = Cell.missing → split_list F.text ≠ [] →
      textOk hs F r = contains_all " nan" (split_list F.text)) := by
  refine ⟨rfl, ?_, ?_, ?_⟩
  · intro h hcol hcell hcity
    unfold cityOk
    rw [hcity, hcol]
    change (if ("nan" : String) = "" then true
      else lowerStr (cellStr (cellAt hs r h)) == lowerStr "nan") = true
    rw [hcell]
    decide
  · intro h hcol hcell
    simp only [modalitiesOk, hcol, hcell]
    by_cases hreq : (split_list F.modalities).isEmpty
    · rw [if_pos hreq, List.isEmpty_iff.mp hreq]
      rfl
    · rw [if_neg hreq]
      rfl
  · intro h hcol hcred hcell hreq
    simp only [textOk, textBlock, hcol, hcred, hcell]
    rcases hsp : split_list F.text with _ | ⟨t, ts⟩
    · exact absurd hsp hreq
    · simp only [List.isEmpty_cons, Bool.false_eq_true, if_false]
      rfl

theorem c10_missing_renders_nan_witness :
    cityOk ["City", "Modalities"] { emptyRequest with city := some "nan" }
      [Cell.missing, Cell.missing] = true ∧
    modalitiesOk ["City", "Modalities"] { emptyRequest with modalities := some "na" }
      [Cell.missing, Cell.missing] = true := by
  constructor
  · exact (c10_missing_renders_nan ["City", "Modalities"]
      { emptyRequest with city := some "nan" } [Cell.missing, Cell.missing]).2.1 "City"
      (by decide) (by decide) rfl
  · have h := (c10_missing_renders_nan ["City", "Modalities"]
      { emptyRequest with modalities := some "na" } [Cell.missing, Cell.missing]).2.2.1
      "Modalities" (by decide) (by decide)
    rw [h]
    decide
theorem lowerLookup_mem {hs : List String} {a c : String} (h : lowerLookup hs a = some c) :
    c ∈ hs ∧ lowerStr c = a := by
  unfold lowerLookup at h
  have hmem := List.mem_of_getLast?_eq_some h
  refine ⟨List.mem_of_mem_filter hmem, ?_⟩
  have := List.of_mem_filter hmem
  simpa using this

theorem findFirstAlias_mem {hs al : List String} {c : String}
    (h : findFirstAlias hs al = some c) : c ∈ hs ∧ lowerStr c ∈ al := by
  induction al with
  | nil => simp [findFirstAlias] at h
  | cons a rest ih =>
    simp only [findFirstAlias] at h
    rcases hl : lowerLookup hs a with _ | c2
    · rw [hl] at h
      have := ih h
      exact ⟨this.1, List.mem_cons_of_mem a this.2⟩
    · rw [hl] at h
      cases h
      have := lowerLookup_mem hl
      exact ⟨this.1, this.2 ▸ List.mem_cons_self a rest⟩

theorem lookup_mem_pairs {l : List (String × List String)} {k : String} {v : List String}
    (h : l.lookup k = some v) : (k, v) ∈ l := by
  obtain ⟨l1, l2, rfl, _⟩ := List.lookup_eq_some_iff.mp h
  exact List.mem_append.mpr (Or.inr (List.mem_cons_self _ _))

theorem aliases_disjoint : ∀ p1 ∈ ALIASES, ∀ p2 ∈ ALIASES, p1.1 ≠ p2.1 →
    ∀ a ∈ p1.2, a ∉ p2.2 := by decide

theorem autodetect_mem {hs : List String} {k c : String}
    (h : autodetectColumns hs k = some c) : c ∈ hs := by
  unfold autodetectColumns at h
  rcases hl : ALIASES.lookup k with _ | al
  · rw [hl] at h
    cases h
  · rw [hl] at h
    exact (findFirstAlias_mem h).1

theorem autodetect_inj (hs : List String) (k1 k2 c : String)
    (h1 : c ∈ autodetectColumns hs k1) (h2 : c ∈ autodetectColumns hs k2) : k1 = k2 := by
  rw [Option.mem_def] at h1 h2
  unfold autodetectColumns at h1 h2
  rcases hl1 : ALIASES.lookup k1 with _ | al1 <;> rw [hl1] at h1
  · cases h1
  rcases hl2 : ALIASES.lookup k2 with _ | al2 <;> rw [hl2] at h2
  · cases h2
  by_contra hne
  have hm1 := (findFirstAlias_mem h1).2
  have hm2 := (findFirstAlias_mem h2).2
  exact aliases_disjoint (k1, al1) (lookup_mem_pairs hl1) (k2, al2) (lookup_mem_pairs hl2)
    hne (lowerStr c) hm1 hm2

theorem preferredCols_nodup (hs : List String) : (preferredCols hs).Nodup :=
  List.Nodup.filterMap (autodetect_inj hs) (by decide)

theorem preferredCols_subset {hs : List String} {c : String} (h : c ∈ preferredCols hs) :
    c ∈ hs := by
  obtain ⟨k, _, hk⟩ := List.mem_filterMap.mp h
  exact autodetect_mem hk

/-- C9: the output column order is the resolved canonical headers in the
fixed enumeration order followed by the remaining headers in their original
relative order; on duplicate-free headers this is a permutation of the
original headers in which each header appears exactly once, and the
`[Bio, City, Price]` example reorders to `[City, Price, Bio]`. -/
theorem c9_column_reorder (hs : List String) (hnd : hs.Nodup) :
    List.Perm (reorderHeaders hs) hs ∧ (reorderHeaders hs).Nodup ∧
    reorderHeaders ["Bio", "City", "Price"] = ["City", "Price", "Bio"] := by
  have hpn := preferredCols_nodup hs
  have htrail : (hs.filter (fun c => !(preferredCols hs).contains c)).Nodup :=
    hnd.filter _
  have hdisj : List.Disjoint (preferredCols hs)
      (hs.filter (fun c => !(preferredCols hs).contains c)) := by
    intro a hap hat
    have := List.of_mem_filter hat
    rw [Bool.not_eq_true', ← Bool.not_eq_true] at this
    exact this (List.elem_iff.mpr hap)
  have hstep1 : List.Perm (preferredCols hs)
      (hs.filter (fun c => (preferredCols hs).contains c)) := by
    rw [List.perm_ext_iff_of_nodup hpn (hnd.filter _)]
    intro a
    constructor
    · intro ha
      exact List.mem_filter.mpr ⟨preferredCols_subset ha, List.elem_iff.mpr ha⟩
    · intro ha
      have hc : (preferredCols hs).contains a = true := List.of_mem_filter ha
      exact List.elem_iff.mp hc
  constructor
  · unfold reorderHeaders
    have happ := hstep1.append
      (List.Perm.refl (hs.filter (fun c => !(preferredCols hs).contains c)))
    exact happ.trans (List.filter_append_perm _ hs)
  constructor
  · exact hpn.append htrail hdisj
  · decide

theorem c9_column_reorder_witness :
    List.Perm (reorderHeaders ["Bio", "City", "Price"]) ["Bio", "City", "Price"] :=
  (c9_column_reorder ["Bio", "City", "Price"] (by decide)).1
theorem toList_mk (cs : List Char) : (String.mk cs).toList = cs := rfl

theorem dropWhile_head_not {α : Type} (p : α → Bool) (l : List α) :
    l.dropWhile p = [] ∨ ∃ a t, l.dropWhile p = a :: t ∧ p a = false := by
  induction l with
  | nil => exact Or.inl rfl
  | cons a l ih =>
    by_cases hpa : p a = true
    · rw [List.dropWhile_cons, if_pos hpa]
      exact ih
    · right
      exact ⟨a, l, by rw [List.dropWhile_cons, if_neg hpa], Bool.eq_false_iff.mpr hpa⟩

theorem dropWhile_eq_self_of_head {α : Type} {p : α → Bool} {l : List α}
    (h : l = [] ∨ ∃ a t, l = a :: t ∧ p a = false) : l.dropWhile p = l := by
  rcases h with rfl | ⟨a, t, rfl, hpa⟩
  · rfl
  · rw [List.dropWhile_cons, if_neg (by simp [hpa])]

theorem dropWhile_idem {α : Type} (p : α → Bool) (l : List α) :
    (l.dropWhile p).dropWhile p = l.dropWhile p :=
  dropWhile_eq_self_of_head (dropWhile_head_not p l)

theorem stripWsL_idem (cs : List Char) : stripWsL (stripWsL cs) = stripWsL cs := by
  unfold stripWsL
  set A := cs.dropWhile isSpaceChar with hA
  set B := A.reverse.dropWhile isSpaceChar with hB
  have hpre : B.reverse <+: A := by
    have hsuf : B <:+ A.reverse := hB ▸ List.dropWhile_suffix isSpaceChar
    have := List.reverse_prefix.mpr hsuf
    rwa [List.reverse_reverse] at this
  have hfront : B.reverse.dropWhile isSpaceChar = B.reverse := by
    apply dropWhile_eq_self_of_head
    rcases hBr : B.reverse with _ | ⟨a, t⟩
    · exact Or.inl rfl
    · right
      obtain ⟨tail, htail⟩ := hpre
      rw [hBr] at htail
      rcases dropWhile_head_not isSpaceChar cs with hnil | ⟨a0, t0, hcons, hpa0⟩
      · rw [← hA] at hnil
        rw [hnil] at htail
        simp at htail
      · rw [← hA] at hcons
        rw [hcons] at htail
        have ha : a = a0 := by
          have := htail
          simp only [List.cons_append] at this
          exact (List.cons.injEq _ _ _ _ ▸ this).1
        exact ⟨a, t, rfl, ha ▸ hpa0⟩
  rw [hfront]
  rw [List.reverse_reverse]
  rw [dropWhile_idem]

theorem pstrip_idem (s : String) : pstrip (pstrip s) = pstrip s := by
  unfold pstrip
  rw [toList_mk]
  rw [stripWsL_idem]

theorem split_list_mem_pstrip {o : Option String} {t : String} (ht : t ∈ split_list o) :
    pstrip t = t := by
  rcases o with _ | s
  · simp [split_list] at ht
  · simp only [split_list] at ht
    by_cases hs : s = ""
    · simp [hs] at ht
    · rw [if_neg hs] at ht
      have hmem := List.mem_of_mem_filter ht
      obtain ⟨x, _, rfl⟩ := List.mem_map.mp hmem
      exact pstrip_idem x

theorem all_congr {α : Type} {l : List α} {f g : α → Bool} (h : ∀ x ∈ l, f x = g x) :
    l.all f = l.all g := by
  induction l with
  | nil => rfl
  | cons a l ih =>
    simp only [List.all_cons]
    rw [h a (List.mem_cons_self a l), ih (fun x hx => h x (List.mem_cons_of_mem a hx))]

theorem contains_all_app_split (hay : String) (o : Option String) :
    contains_all_app hay (split_list o) = contains_all hay (split_list o) := by
  unfold contains_all_app contains_all
  apply all_congr
  intro t ht
  have hp : pstrip t = t := split_list_mem_pstrip ht
  have hne : t ≠ "" := split_list_mem_ne o ht
  rw [hp, if_neg hne]
/-- The interactive form's numeric fields carry plain numbers defaulting to
`0`; its pipeline matches the command line exactly when every supplied
numeric bound is nonzero (a zero bound is inactive in the app but active on
the command line). -/
def numericBoundsNonzero (F : FilterRequest) : Prop :=
  (∀ m, F.priceMin = some m → m ≠ 0) ∧ (∀ m, F.priceMax = some m → m ≠ 0) ∧
  (∀ m, F.ratingMin = some m → m ≠ 0) ∧ (∀ m, F.reviewsMin = some m → m ≠ 0) ∧
  (∀ m, F.yearsMin = some m → m ≠ 0)

/-- A sort key resolves identically in both entry points when (after the
direction marker is stripped) it matches a header exactly or names a
resolved canonical field. -/
def keyResolvesDirectly (hs : List String) (k : String) : Prop :=
  hs.contains (if startsDash k then dropFirst k else k) = true ∨
  ((ALIASES.lookup (lowerStr (if startsDash k then dropFirst k else k))).isSome ∧
    (autodetectColumns hs (lowerStr (if startsDash k then dropFirst k else k))).isSome)

theorem appPriceOk_eq (hs : List String) (F : FilterRequest) (r : List Cell)
    (hmin : ∀ m, F.priceMin = some m → m ≠ 0) (hmax : ∀ m, F.priceMax = some m → m ≠ 0) :
    appPriceOk hs F r = priceOk hs F r := by
  unfold appPriceOk priceOk
  cases autodetectColumns hs "price" with
  | none => rfl
  | some h =>
    cases hm1 : F.priceMin <;> cases hm2 : F.priceMax <;> dsimp only <;>
      first
        | rfl
        | rw [if_neg (hmin _ hm1), if_neg (hmax _ hm2)]
        | rw [if_neg (hmin _ hm1)]
        | rw [if_neg (hmax _ hm2)]

theorem appRatingOk_eq (hs : List String) (F : FilterRequest) (r : List Cell)
    (hmin : ∀ m, F.ratingMin = some m → m ≠ 0) : appRatingOk hs F r = ratingOk hs F r := by
  unfold appRatingOk ratingOk
  cases hm : F.ratingMin <;> cases autodetectColumns hs "rating" <;> dsimp only <;>
    first
      | rfl
      | rw [if_neg (hmin _ hm)]

theorem appReviewsOk_eq (hs : List String) (F : FilterRequest) (r : List Cell)
    (hmin : ∀ m, F.reviewsMin = some m → m ≠ 0) : appReviewsOk hs F r = reviewsOk hs F r := by
  unfold appReviewsOk reviewsOk
  cases hm : F.reviewsMin <;> cases autodetectColumns hs "reviews" <;> dsimp only <;>
    first
      | rfl
      | rw [if_neg (hmin _ hm)]

theorem appYearsOk_eq (hs : List String) (F : FilterRequest) (r : List Cell)
    (hmin : ∀ m, F.yearsMin = some m → m ≠ 0) : appYearsOk hs F r = yearsOk hs F r := by
  unfold appYearsOk yearsOk
  cases hm : F.yearsMin <;> cases autodetectColumns hs "yearsexperience" <;> dsimp only <;>
    first
      | rfl
      | rw [if_neg (hmin _ hm)]

theorem appModalitiesOk_eq (hs : List String) (F : FilterRequest) (r : List Cell) :
    appModalitiesOk hs F r = modalitiesOk hs F r := by
  simp only [appModalitiesOk, modalitiesOk, contains_all_app_split]

theorem appLanguagesOk_eq (hs : List String) (F : FilterRequest) (r : List Cell) :
    appLanguagesOk hs F r = languagesOk hs F r := by
  simp only [appLanguagesOk, languagesOk, contains_all_app_split]

theorem appAvailabilityOk_eq (hs : List String) (F : FilterRequest) (r : List Cell) :
    appAvailabilityOk hs F r = availabilityOk hs F r := by
  have hmap : (split_list F.available).map lowerStr
      = (split_list F.available).map (fun d => lowerStr (pstrip d)) :=
    List.map_congr_left (fun d hd => by rw [split_list_mem_pstrip hd])
  simp only [appAvailabilityOk, availabilityOk, hmap]

theorem appTextOk_eq (hs : List String) (F : FilterRequest) (r : List Cell) :
    appTextOk hs F r = textOk hs F r := by
  simp only [appTextOk, textOk, contains_all_app_split]

theorem rowKeepApp_eq (hs : List String) (F : FilterRequest) (r : List Cell)
    (hb : numericBoundsNonzero F) : rowKeepApp hs F r = rowKeep hs F r := by
  obtain ⟨h1, h2, h3, h4, h5⟩ := hb
  unfold rowKeepApp rowKeep
  rw [appPriceOk_eq hs F r h1 h2, appRatingOk_eq hs F r h3, appReviewsOk_eq hs F r h4,
    appYearsOk_eq hs F r h5, appModalitiesOk_eq, appLanguagesOk_eq, appAvailabilityOk_eq,
    appTextOk_eq]

theorem filterStepApp_eq (d : Dataset) (F : FilterRequest) (hb : numericBoundsNonzero F) :
    filterStepApp d F = filterStep d F := by
  unfold filterStepApp filterStep
  exact List.filter_congr (fun r _ => rowKeepApp_eq d.headers F r hb)
theorem resolveKey_agree {hs : List String} {key : String}
    (h : hs.contains key = true ∨
      ((ALIASES.lookup (lowerStr key)).isSome ∧ (autodetectColumns hs (lowerStr key)).isSome)) :
    resolveKeyApp hs key = resolveKeyCLI hs key ∧ (resolveKeyApp hs key).isSome := by
  unfold resolveKeyApp resolveKeyCLI
  by_cases hc : hs.contains key
  · rw [if_pos hc, if_pos hc]
    exact ⟨rfl, rfl⟩
  · rw [if_neg hc, if_neg hc]
    rcases h with h | ⟨h1, h2⟩
    · exact absurd h hc
    · rcases hl : ALIASES.lookup (lowerStr key) with _ | al
      · rw [hl] at h1
        simp at h1
      · rcases ha : autodetectColumns hs (lowerStr key) with _ | c
        · rw [ha] at h2
          simp at h2
        · exact ⟨rfl, rfl⟩

theorem resolve_agree (hs : List String) (keys : List String)
    (hall : ∀ k ∈ keys, keyResolvesDirectly hs k) :
    resolveApp hs keys = ((resolveCLI hs keys).1, (resolveCLI hs keys).2.1) ∧
      (resolveCLI hs keys).2.2 = [] := by
  induction keys with
  | nil => exact ⟨rfl, rfl⟩
  | cons k rest ih =>
    obtain ⟨hk, hrest⟩ := List.forall_mem_cons.mp hall
    obtain ⟨ihEq, ihW⟩ := ih hrest
    obtain ⟨heq, hsome⟩ := resolveKey_agree hk
    simp only [resolveApp, resolveCLI]
    rcases hra : resolveKeyApp hs (if startsDash k then dropFirst k else k) with _ | c
    · rw [hra] at hsome
      simp at hsome
    · have hrc : resolveKeyCLI hs (if startsDash k then dropFirst k else k) = some c := by
        rw [← heq]
        exact hra
      rw [hrc, ihEq]
      exact ⟨rfl, ihW⟩

theorem resolveCLI_len (hs : List String) (keys : List String) :
    (resolveCLI hs keys).1.length = (resolveCLI hs keys).2.1.length := by
  induction keys with
  | nil => rfl
  | cons k rest ih =>
    simp only [resolveCLI]
    rcases resolveKeyCLI hs (if startsDash k then dropFirst k else k) with _ | c
    · exact ih
    · simp [ih]
/-- C4 (amended): the two pipelines agree on filtering, sorting and
reordering whenever (i) every supplied numeric bound is nonzero (the
interactive form treats a zero bound as "no constraint" where the command
line treats any supplied bound as active), and (ii) every sort key, after
stripping its direction marker, matches a header exactly or names a
resolved canonical field (the command line additionally falls back to
case-insensitive header matching and warns on unresolved keys; the app
silently drops such keys while still recording their directions). -/
theorem c4_pipelines_agree (d : Dataset) (F : FilterRequest) (sortArg : Option String)
    (hb : numericBoundsNonzero F)
    (hkeys : ∀ s, sortArg = some s → ∀ k ∈ parseSortKeysRaw s, keyResolvesDirectly d.headers k) :
    appPipeline d F sortArg = some (cliPipeline d F sortArg).1 := by
  unfold appPipeline cliPipeline
  rw [filterStepApp_eq d F hb]
  rcases sortArg with _ | s
  · rfl
  · by_cases hse : s = ""
    · simp only [if_pos hse]
    · simp only [if_neg hse]
      obtain ⟨hEq, _⟩ := resolve_agree d.headers (parseSortKeysRaw s) (hkeys s rfl)
      rw [hEq]
      by_cases hbe : (resolveCLI d.headers (parseSortKeysRaw s)).1.isEmpty
      · rw [if_pos hbe, if_pos hbe]
      · rw [if_neg hbe, if_neg hbe]
        rw [if_pos (resolveCLI_len d.headers (parseSortKeysRaw s))]

instance keyResolvesDirectlyDecidable (hs : List String) (k : String) :
    Decidable (keyResolvesDirectly hs k) := by
  unfold keyResolvesDirectly
  infer_instance

theorem c4_pipelines_agree_witness :
    appPipeline ⟨["Price"], [[Cell.num 2], [Cell.num 1]]⟩ emptyRequest (some "price")
      = some (cliPipeline ⟨["Price"], [[Cell.num 2], [Cell.num 1]]⟩ emptyRequest
        (some "price")).1 :=
  c4_pipelines_agree ⟨["Price"], [[Cell.num 2], [Cell.num 1]]⟩ emptyRequest (some "price")
    ⟨fun _ hm => Option.noConfusion hm, fun _ hm => Option.noConfusion hm,
     fun _ hm => Option.noConfusion hm, fun _ hm => Option.noConfusion hm,
     fun _ hm => Option.noConfusion hm⟩
    (fun s hs => by cases hs; decide)

/-- C4 (counterexample): on headers `[Foo]` with sort request `foo`, the
command line resolves the key case-insensitively and sorts, while the
interactive app drops it and leaves the rows unsorted, so the two pipelines
produce different datasets for the same inputs. -/
theorem c4_claim_counterexample :
    (cliPipeline ⟨["Foo"], [[Cell.num 2], [Cell.num 1]]⟩ emptyRequest (some "foo")).1
      = ⟨["Foo"], [[Cell.num 1], [Cell.num 2]]⟩ ∧
    appPipeline ⟨["Foo"], [[Cell.num 2], [Cell.num 1]]⟩ emptyRequest (some "foo")
      = some ⟨["Foo"], [[Cell.num 2], [Cell.num 1]]⟩ ∧
    appPipeline ⟨["Foo"], [[Cell.num 2], [Cell.num 1]]⟩ emptyRequest (some "foo")
      ≠ some (cliPipeline ⟨["Foo"], [[Cell.num 2], [Cell.num 1]]⟩ emptyRequest
        (some "foo")).1 :=
  ⟨by decide, by decide, by decide⟩
